import Mathlib

/-!
Verification development for the trader-shell core (Go sources under src/).

Shallow embedding conventions:
* `decimal.Decimal` (shopspring, exact decimal arithmetic) is carried by `ℚ`:
  every decimal is a rational, and the operations used by the code
  (comparison, multiplication) are exact on this subset.
* Go slices of stop orders are `List` values; the package-level mutable slice
  `stopOrders` is threaded explicitly through each state transformer.
* Go maps are association lists with unique keys; `delete` removes every
  binding of the key, which agrees with map semantics on unique-key lists.
* Panics of slice indexing are modelled with `Option` (`none` = panic).
-/

namespace TraderShell

/-! ### Constants (src/unnamed/part_002, constants block) -/

def TradeSideBuy : String := "BUY"

def TradeSideSell : String := "SELL"

def TradeTypeMarket : String := "MARKET"

def TradeTypeLimit : String := "LIMIT"

def ArgMarket : String := "mkt"

def ArgBuy : String := "b"

def FixExecFill : String := "Fill"

def FixExecCanceled : String := "Canceled"

/-! ### Stop-order store (src/unnamed/part_002 lines 36-45, src/core/oco.go) -/

/-- The `stopOrder` struct (src/unnamed/part_002 lines 36-43).
`StopPrice` is a `decimal.Decimal`, embedded in `ℚ`; `Amount` is a `float64`
whose exact value is likewise a rational. -/
structure stopOrder where
  Product : String
  Side : String
  Amount : ℚ
  StopPrice : ℚ
  PlacedOrderId : String
  BaseQuantity : String
deriving DecidableEq, Repr

/-- The firing test of one scan iteration of `processStopOrders`
(src/core/price.go lines 211-225): the entry is skipped unless its product
matches the tick, a Buy stop fires when `currentPrice >= StopPrice`
(`GreaterThanOrEqual`), a Sell stop when `currentPrice <= StopPrice`. -/
def stopOrderFires (productId : String) (currentPrice : ℚ) (o : stopOrder) : Bool :=
  o.Product == productId &&
    ((o.Side == TradeSideBuy && decide (o.StopPrice ≤ currentPrice)) ||
     (o.Side == TradeSideSell && decide (currentPrice ≤ o.StopPrice)))

/-- `removeStopOrder` (src/core/price.go lines 233-239): out-of-range indices
are logged and ignored, otherwise the entry at `index` is spliced out by
`append(stopOrders[:index], stopOrders[index+1:]...)`. The Go index is an
`int`; the indices actually passed come from the scan and are non-negative,
so a `Nat` carries them. -/
def removeStopOrder (orders : List stopOrder) (index : Nat) : List stopOrder :=
  if index < orders.length then orders.take index ++ orders.drop (index + 1) else orders

/-- The reverse scan of `processStopOrders` (src/core/price.go lines 210-226):
`i` runs from `len(stopOrders)-1` down to `0` and each fired index is appended
to `toRemove`, so `toRemove` lists the fired indices in descending order. -/
def stopOrderToRemove (orders : List stopOrder) (productId : String) (px : ℚ) : List Nat :=
  (((orders.enum).filter (fun p => stopOrderFires productId px p.2)).map Prod.fst).reverse

/-- The dispatches of one pass of `processStopOrders`: during the scan, each
fired entry has `executeStopBuyOco` / `executeStopSellOco` invoked on it once
(market order mirroring the stop plus cancel of `PlacedOrderId`), in scan
order, i.e. in reverse index order. -/
def stopOrderDispatches (orders : List stopOrder) (productId : String) (px : ℚ) :
    List stopOrder :=
  (orders.filter (stopOrderFires productId px)).reverse

/-- `processStopOrders` (src/core/price.go lines 206-231): after the scan, the
removal loop runs `for i := len(toRemove) - 1; i >= 0; i--` calling
`removeStopOrder(toRemove[i])`, i.e. it consumes `toRemove` from its last
element to its first; since `toRemove` is descending, the indices are removed
in ascending order. -/
def processStopOrders (orders : List stopOrder) (productId : String) (px : ℚ) :
    List stopOrder :=
  ((stopOrderToRemove orders productId px).reverse).foldl removeStopOrder orders

/-- Modelled from the spec: section 4.3 step 5 prescribes removing the marked
indices in descending order so that no removal invalidates a later one. This
is the removal order the code would have needed (iterating `toRemove` from its
first element); it is stated here only to compare with `processStopOrders`. -/
def processStopOrdersSpec (orders : List stopOrder) (productId : String) (px : ℚ) :
    List stopOrder :=
  (stopOrderToRemove orders productId px).foldl removeStopOrder orders

/-! Concrete stop orders used as inputs below. -/

def oA : stopOrder := ⟨"ETH-USD", "BUY", 1, 30000, "ord-A", "1"⟩

def oB : stopOrder := ⟨"ETH-USD", "BUY", 1, 29000, "ord-B", "1"⟩

def oX : stopOrder := ⟨"LTC-USD", "BUY", 1, 10, "ord-X", "1"⟩

/-- The descending-order removal of the specification removes exactly the
fired entries: on the two-order example both fired entries go away. -/
theorem processStopOrdersSpec_removes_both :
    processStopOrdersSpec [oA, oB] "ETH-USD" 30500 = [] := by decide

/-! ### Execution reconciler (src/unnamed/part_000 lines 568-622, src/core/oco.go) -/

/-- An execution report as consumed by `getExecType` after field extraction:
ExecType (tag 150), optional Text (tag 58), OrderID (tag 37) and
ClOrdID (tag 11). Reports whose mandatory fields fail to parse make
`getExecType` return without touching the store and are not modelled. -/
structure ExecReport where
  execType : String
  text : Option String
  orderId : String
  clOrdId : String
deriving DecidableEq, Repr

/-- The order store: the package-level `tempStopOrders` map (keyed by client
order id) and `stopOrders` slice, both guarded by `stopOrdersMutex`. -/
structure OrderStore where
  tempStopOrders : List (String × stopOrder)
  stopOrders : List stopOrder
deriving DecidableEq, Repr

/-- `execTypeDescriptions` (src/unnamed/part_002 lines 398-414). -/
def execTypeDescriptions : List (String × String) :=
  [("0", "New"), ("1", "Partial Fill"), ("2", "Fill"), ("3", "Done for day"),
   ("4", "Canceled"), ("5", "Replace"), ("6", "Pending Cancel"), ("7", "Stopped"),
   ("8", "Rejected"), ("9", "Suspended"), ("A", "Pending New"), ("B", "Calculated"),
   ("C", "Expired"), ("D", "Restated"), ("E", "Pending Replace")]

/-- `orderExistsInStopOrders` (src/core/oco.go lines 78-85). -/
def orderExistsInStopOrders (orders : List stopOrder) (orderId : String) : Bool :=
  orders.any (fun o => o.PlacedOrderId == orderId)

/-- `findOrderIndexById` (src/core/oco.go lines 87-94): index of the first
entry whose `PlacedOrderId` matches, `-1` (here `none`) when absent. -/
def findOrderIndexById (orders : List stopOrder) (orderId : String) : Option Nat :=
  match orders with
  | [] => none
  | o :: rest =>
    if o.PlacedOrderId == orderId then some 0
    else (findOrderIndexById rest orderId).map (· + 1)

/-- The provisional-promotion step of `getExecType` (src/unnamed/part_000
lines 600-608): when `ClOrdID` matches a `tempStopOrders` entry, its
`PlacedOrderId` is set to the venue `OrderID`, the entry is deleted from the
map and appended to `stopOrders` unless an entry with that venue id already
exists there. -/
def promoteProvisional (s : OrderStore) (r : ExecReport) : OrderStore :=
  match s.tempStopOrders.lookup r.clOrdId with
  | some tempOrder =>
    let promoted := { tempOrder with PlacedOrderId := r.orderId }
    let temp2 := s.tempStopOrders.filter (fun p => !(p.1 == r.clOrdId))
    if orderExistsInStopOrders s.stopOrders r.orderId then
      { tempStopOrders := temp2, stopOrders := s.stopOrders }
    else
      { tempStopOrders := temp2, stopOrders := s.stopOrders ++ [promoted] }
  | none => s

/-- The terminal-removal step of `getExecType` (src/unnamed/part_000 lines
610-615): `append(stopOrders[:index], stopOrders[index+1:]...)` on the first
matching index, nothing when `findOrderIndexById` yields `-1`. -/
def removeById (orders : List stopOrder) (orderId : String) : List stopOrder :=
  match findOrderIndexById orders orderId with
  | some index => orders.take index ++ orders.drop (index + 1)
  | none => orders

/-- The normalized execution type of a report is terminal (`Fill` or
`Canceled`): `execTypeDescriptions[execType]` (defaulting to `Unknown`)
compared against `FixExecFill` and `FixExecCanceled`
(src/unnamed/part_000 lines 578-581 and 610). -/
def isTerminalExec (r : ExecReport) : Bool :=
  let execTypeDescription := (execTypeDescriptions.lookup r.execType).getD "Unknown"
  execTypeDescription == FixExecFill || execTypeDescription == FixExecCanceled

/-- `getExecType` (src/unnamed/part_000 lines 568-622) as a state transform on
the order store (the printed log line carries no state): under the lock, the
promotion step runs first, then the removal step when the normalized
execution type is terminal. -/
def getExecType (s : OrderStore) (r : ExecReport) : OrderStore :=
  let s1 := promoteProvisional s r
  if isTerminalExec r = true then
    { s1 with stopOrders := removeById s1.stopOrders r.orderId }
  else s1

/-! Reconciler lemmas. -/

theorem findOrderIndexById_eq_none_iff {orders : List stopOrder} {orderId : String} :
    findOrderIndexById orders orderId = none ↔
      orders.countP (fun o => o.PlacedOrderId == orderId) = 0 := by
  induction orders with
  | nil => simp [findOrderIndexById]
  | cons o rest ih =>
    cases hb : o.PlacedOrderId == orderId with
    | true => simp [findOrderIndexById, hb, List.countP_cons]
    | false => simp [findOrderIndexById, hb, List.countP_cons, ih]

theorem countP_take_drop_of_findOrderIndexById {orders : List stopOrder}
    {orderId : String} {i : Nat} (h : findOrderIndexById orders orderId = some i) :
    (orders.take i ++ orders.drop (i + 1)).countP (fun o => o.PlacedOrderId == orderId)
      = orders.countP (fun o => o.PlacedOrderId == orderId) - 1 := by
  induction orders generalizing i with
  | nil => simp [findOrderIndexById] at h
  | cons o rest ih =>
    cases hb : o.PlacedOrderId == orderId with
    | true =>
      simp only [findOrderIndexById, hb, if_true] at h
      have h0 : (0 : Nat) = i := by simpa using h
      subst h0
      simp [List.countP_cons, hb]
    | false =>
      simp only [findOrderIndexById, hb, Bool.false_eq_true, if_false,
        Option.map_eq_some'] at h
      obtain ⟨j, hj, rfl⟩ := h
      simp only [List.take_succ_cons, List.drop_succ_cons, List.cons_append,
        List.countP_cons, hb, ih hj]
      simp

theorem removeById_of_none {orders : List stopOrder} {orderId : String}
    (h : findOrderIndexById orders orderId = none) : removeById orders orderId = orders := by
  simp [removeById, h]

theorem countP_removeById_eq_zero {orders : List stopOrder} {orderId : String}
    (h : orders.countP (fun o => o.PlacedOrderId == orderId) ≤ 1) :
    (removeById orders orderId).countP (fun o => o.PlacedOrderId == orderId) = 0 := by
  cases hfind : findOrderIndexById orders orderId with
  | none =>
    rw [removeById_of_none hfind]
    exact findOrderIndexById_eq_none_iff.mp hfind
  | some i =>
    rw [removeById, hfind]
    rw [countP_take_drop_of_findOrderIndexById hfind]
    omega

theorem lookup_filter_out {m : List (String × stopOrder)} {k : String} :
    (m.filter (fun p => !(p.1 == k))).lookup k = none := by
  induction m with
  | nil => rfl
  | cons p rest ih =>
    cases hb : p.1 == k with
    | true => simpa [List.filter_cons, hb] using ih
    | false =>
      have hb2 : (k == p.1) = false := by
        rw [beq_eq_false_iff_ne] at hb ⊢
        exact fun e => hb e.symm
      simpa [List.filter_cons, hb, List.lookup, hb2] using ih

theorem promoteProvisional_of_lookup_none {s : OrderStore} {r : ExecReport}
    (h : s.tempStopOrders.lookup r.clOrdId = none) : promoteProvisional s r = s := by
  simp [promoteProvisional, h]

theorem promoteProvisional_lookup_none (s : OrderStore) (r : ExecReport) :
    (promoteProvisional s r).tempStopOrders.lookup r.clOrdId = none := by
  cases h : s.tempStopOrders.lookup r.clOrdId with
  | none => rw [promoteProvisional_of_lookup_none h, h]
  | some tempOrder =>
    rw [promoteProvisional, h]
    cases hex : orderExistsInStopOrders s.stopOrders r.orderId <;>
      simp [hex, lookup_filter_out]

theorem promoteProvisional_countP_le {s : OrderStore} {r : ExecReport}
    (h : s.stopOrders.countP (fun o => o.PlacedOrderId == r.orderId) ≤ 1) :
    (promoteProvisional s r).stopOrders.countP (fun o => o.PlacedOrderId == r.orderId) ≤ 1 := by
  cases hl : s.tempStopOrders.lookup r.clOrdId with
  | none => rw [promoteProvisional_of_lookup_none hl]; exact h
  | some tempOrder =>
    rw [promoteProvisional, hl]
    cases hex : orderExistsInStopOrders s.stopOrders r.orderId with
    | true => simpa using h
    | false =>
      have hzero : s.stopOrders.countP (fun o => o.PlacedOrderId == r.orderId) = 0 := by
        rw [orderExistsInStopOrders] at hex
        rw [List.countP_eq_zero]
        intro a ha
        simpa using List.any_eq_false.mp hex a ha
      simp [List.countP_append, List.countP_cons, hzero]

theorem getExecType_tempStopOrders (s : OrderStore) (r : ExecReport) :
    (getExecType s r).tempStopOrders = (promoteProvisional s r).tempStopOrders := by
  rw [getExecType]
  split <;> rfl

/-! ### Claim theorems C1 - C4 -/

/-- C1: the claim states that exactly the fired stop orders are removed from
the confirmed list in a tick pass, the marked indices being removed in
descending order. The code instead consumes `toRemove` from its last element
to its first, i.e. in ascending index order: on a pass where the two orders
`oA` and `oB` (both `ETH-USD` buy stops with triggers 30000 and 29000) both
fire at price 30500, removing index 0 first shifts `oB` down, the subsequent
`removeStopOrder 1` is out of range and is ignored, and the fired order `oB`
survives the pass. -/
theorem processStopOrders_skips_fired_order :
    stopOrderFires "ETH-USD" 30500 oA = true ∧
    stopOrderFires "ETH-USD" 30500 oB = true ∧
    stopOrderToRemove [oA, oB] "ETH-USD" 30500 = [1, 0] ∧
    processStopOrders [oA, oB] "ETH-USD" 30500 = [oB] := by decide

/-- C2: the claim states that orders for other products are left untouched by
a tick pass. The ascending-order removal falsifies this: with confirmed list
`[oA, oB, oX]` where `oA`, `oB` fire on the `ETH-USD` tick and `oX` is an
`LTC-USD` order that does not fire, the pass removes index 0, then index 1 of
the shifted list, which is `oX` - the foreign-product order is deleted while
the fired `oB` survives. (The firing test itself matches the claim:
`stopOrderFires` is exactly product match plus price crossing.) -/
theorem processStopOrders_removes_foreign_product_order :
    oX.Product ≠ "ETH-USD" ∧
    stopOrderFires "ETH-USD" 30500 oX = false ∧
    processStopOrders [oA, oB, oX] "ETH-USD" 30500 = [oB] := by decide

/-- C3: the claim states at-most-once removal and at-most-once paired
dispatch per contingent order across all interleavings of ticks and reports.
Because a pass in which two orders fire leaves one of them in the list
(see C1), a second tick of the same product fires it again: over the two
sequential ticks, `oB` is dispatched twice. -/
theorem stopOrder_dispatched_twice_across_ticks :
    (stopOrderDispatches [oA, oB] "ETH-USD" 30500 ++
      stopOrderDispatches (processStopOrders [oA, oB] "ETH-USD" 30500) "ETH-USD" 30500).count
      oB = 2 := by decide

/-- C4: a terminal (Fill or Canceled) execution report removes the confirmed
stop order whose venue order id matches, and reconciliation is idempotent.
Under the reachable-store invariant that at most one confirmed entry carries
the reported venue order id: (1) after processing, no confirmed entry with
that venue id remains; (2) delivering the same terminal report a second time
leaves the store exactly unchanged; (3) a terminal report whose client order
id matches no provisional entry and whose venue order id matches no confirmed
entry leaves the store unchanged (and raises no error). -/
theorem getExecType_terminal_idempotent (s : OrderStore) (r : ExecReport)
    (hterm : isTerminalExec r = true)
    (hcount : s.stopOrders.countP (fun o => o.PlacedOrderId == r.orderId) ≤ 1) :
    (getExecType s r).stopOrders.countP (fun o => o.PlacedOrderId == r.orderId) = 0 ∧
    getExecType (getExecType s r) r = getExecType s r ∧
    (s.tempStopOrders.lookup r.clOrdId = none →
      findOrderIndexById s.stopOrders r.orderId = none →
      getExecType s r = s) := by
  have hA : (getExecType s r).stopOrders.countP
      (fun o => o.PlacedOrderId == r.orderId) = 0 := by
    rw [getExecType]
    simp only [if_pos hterm]
    exact countP_removeById_eq_zero (promoteProvisional_countP_le hcount)
  refine ⟨hA, ?_, ?_⟩
  · have htemp : (getExecType s r).tempStopOrders.lookup r.clOrdId = none := by
      rw [getExecType_tempStopOrders]
      exact promoteProvisional_lookup_none s r
    have hfind : findOrderIndexById (getExecType s r).stopOrders r.orderId = none :=
      findOrderIndexById_eq_none_iff.mpr hA
    conv_lhs => rw [getExecType]
    rw [promoteProvisional_of_lookup_none htemp]
    simp only [if_pos hterm]
    rw [removeById_of_none hfind]
  · intro h1 h2
    rw [getExecType, promoteProvisional_of_lookup_none h1]
    simp only [if_pos hterm]
    rw [removeById_of_none h2]

/-- Concrete store and report instantiating the hypotheses of the C4
theorem: provisional entry `c-1` promoted by a Fill report for venue id
`v-1` and reconciled away. -/
def s0 : OrderStore := ⟨[("c-1", oA)], []⟩

def r0 : ExecReport := ⟨"2", none, "v-1", "c-1"⟩

/-- C4 witness: the theorem applied at the concrete store `s0` and Fill
report `r0`. -/
theorem getExecType_terminal_idempotent_witness :
    isTerminalExec r0 = true ∧
    s0.stopOrders.countP (fun o => o.PlacedOrderId == r0.orderId) ≤ 1 ∧
    ((getExecType s0 r0).stopOrders.countP (fun o => o.PlacedOrderId == r0.orderId) = 0 ∧
      getExecType (getExecType s0 r0) r0 = getExecType s0 r0 ∧
      (s0.tempStopOrders.lookup r0.clOrdId = none →
        findOrderIndexById s0.stopOrders r0.orderId = none →
        getExecType s0 r0 = s0)) :=
  ⟨by decide, by decide, getExecType_terminal_idempotent s0 r0 (by decide) (by decide)⟩

/-! ### Order book (src/unnamed/part_000 lines 123-309) -/

/-- The `Level` struct (part_000 lines 129-133). In the source `Px` and `Qty`
are `float64` values produced by `strconv.ParseFloat`; every finite float64
is a rational, and the operations applied to them (equality and order
comparisons) are exact on that subset, so `ℚ` carries the values. The lossy
parse from the wire string to a float64 is modelled by `levelFromJSON`
below. -/
structure Level where
  Side : String
  Px : ℚ
  Qty : ℚ
deriving DecidableEq, Repr

/-- `OrderBookProcessor` (part_000 lines 135-138). -/
structure OrderBookProcessor where
  Bids : List Level
  Offers : List Level
deriving DecidableEq, Repr

/-- Bid ordering of `sort` (part_000 lines 277-279): `sort.Slice` with strict
comparator `Px[i] > Px[j]` guarantees a permutation whose consecutive entries
satisfy the non-strict reverse `Px[j] <= Px[i]`. -/
def bidOrder (a b : Level) : Prop := b.Px ≤ a.Px

/-- Offer ordering of `sort` (part_000 lines 280-282). -/
def offerOrder (a b : Level) : Prop := a.Px ≤ b.Px

instance : DecidableRel bidOrder := fun a b => inferInstanceAs (Decidable (b.Px ≤ a.Px))

instance : DecidableRel offerOrder := fun a b => inferInstanceAs (Decidable (a.Px ≤ b.Px))

instance : IsTotal Level bidOrder := ⟨fun a b => le_total b.Px a.Px⟩

instance : IsTrans Level bidOrder := ⟨fun _ _ _ h1 h2 => le_trans h2 h1⟩

instance : IsTotal Level offerOrder := ⟨fun a b => le_total a.Px b.Px⟩

instance : IsTrans Level offerOrder := ⟨fun _ _ _ h1 h2 => le_trans h1 h2⟩

/-- `sort` (part_000 lines 276-283): Go `sort.Slice` yields a permutation
pairwise ordered by the comparator; when the prices on the side are pairwise
distinct that permutation is unique, so the deterministic `insertionSort`
computes exactly it. -/
def OrderBookProcessor.sort (p : OrderBookProcessor) : OrderBookProcessor :=
  { Bids := p.Bids.insertionSort bidOrder, Offers := p.Offers.insertionSort offerOrder }

/-- The upsert scan inside `apply` (part_000 lines 234-244): the first entry
with equal price is replaced in place, otherwise the level is appended at the
end. -/
def upsertLevel (target : List Level) (level : Level) : List Level :=
  match target with
  | [] => [level]
  | existing :: rest =>
    if existing.Px == level.Px then level :: rest
    else existing :: upsertLevel rest level

/-- `apply` (part_000 lines 219-245) on an already-parsed level: side `offer`
upserts into `Offers`, side `bid` into `Bids`, an unrecognized side tag is
logged and the update dropped. -/
def OrderBookProcessor.apply (p : OrderBookProcessor) (level : Level) :
    OrderBookProcessor :=
  if level.Side == "offer" then { p with Offers := upsertLevel p.Offers level }
  else if level.Side == "bid" then { p with Bids := upsertLevel p.Bids level }
  else p

/-- `filterZeroQty` (part_000 lines 252-260): keeps the entries with
`Qty > 0`. -/
def filterZeroQty (levels : List Level) : List Level :=
  levels.filter (fun level => decide (0 < level.Qty))

/-- `filterClosed` (part_000 lines 247-250). -/
def OrderBookProcessor.filterClosed (p : OrderBookProcessor) : OrderBookProcessor :=
  { Bids := filterZeroQty p.Bids, Offers := filterZeroQty p.Offers }

/-- A parsed delta message: its channel tag and the concatenation of the
level updates of all its events, in order (part_000 lines 193-214). Updates
whose numeric fields fail to parse are skipped by the source and not
modelled. -/
structure UpdateMessage where
  Channel : String
  Updates : List Level
deriving DecidableEq, Repr

/-- `ApplyUpdate` (part_000 lines 192-217): a message whose channel is not
`l2_data` is discarded; otherwise every update is applied in order, then
`filterClosed` and `sort` run. -/
def OrderBookProcessor.ApplyUpdate (p : OrderBookProcessor) (m : UpdateMessage) :
    OrderBookProcessor :=
  if m.Channel == "l2_data" then
    ((m.Updates.foldl OrderBookProcessor.apply p).filterClosed).sort
  else p

/-- `NewOrderBookProcessor` (part_000 lines 140-176) on an already-parsed
snapshot: levels are partitioned by side tag in arrival order (other tags
dropped) and the book is sorted. -/
def NewOrderBookProcessor (snapshot : List Level) : OrderBookProcessor :=
  OrderBookProcessor.sort
    { Bids := snapshot.filter (fun l => l.Side == "bid"),
      Offers := snapshot.filter (fun l => l.Side == "offer") }

/-- `GetTopNBids` (part_000 lines 262-267): `n` is a Go `int`; when
`n > len(Bids)` the whole slice is returned, otherwise `Bids[:n]`, which
panics (modelled `none`) for negative `n`. -/
def OrderBookProcessor.GetTopNBids (p : OrderBookProcessor) (n : Int) :
    Option (List Level) :=
  if (p.Bids.length : Int) < n then some p.Bids
  else if n < 0 then none
  else some (p.Bids.take n.toNat)

/-- `GetTopNOffers` (part_000 lines 269-274). -/
def OrderBookProcessor.GetTopNOffers (p : OrderBookProcessor) (n : Int) :
    Option (List Level) :=
  if (p.Offers.length : Int) < n then some p.Offers
  else if n < 0 then none
  else some (p.Offers.take n.toNat)

/-- Spec section 8 example scenario: snapshot `[{bid,100,2},{ask,101,3}]`,
delta `{bid,100,0}`; result: bids empty, asks `[{101,3}]`. -/
theorem applyUpdate_example_scenario :
    (NewOrderBookProcessor [⟨"bid", 100, 2⟩, ⟨"offer", 101, 3⟩]).ApplyUpdate
        ⟨"l2_data", [⟨"bid", 100, 0⟩]⟩ =
      ⟨[], [⟨"offer", 101, 3⟩]⟩ := by decide

/-! ### Ladder invariants -/

/-- Prices strictly descending along the list (best bid first). -/
def StrictlyDescending (l : List Level) : Prop :=
  l.Pairwise (fun a b => b.Px < a.Px)

/-- Prices strictly ascending along the list (best offer first). -/
def StrictlyAscending (l : List Level) : Prop :=
  l.Pairwise (fun a b => a.Px < b.Px)

/-- No two entries of the side share a price. -/
def NoDupPx (l : List Level) : Prop := (l.map Level.Px).Nodup

/-- Every entry has positive quantity. -/
def AllPosQty (l : List Level) : Prop := ∀ e ∈ l, 0 < e.Qty

/-- The Ladder invariant claimed for the book after each `ApplyUpdate`:
bids strictly descending, offers strictly ascending, no duplicate price per
side, no zero (or negative) quantity. -/
def LadderInv (p : OrderBookProcessor) : Prop :=
  StrictlyDescending p.Bids ∧ StrictlyAscending p.Offers ∧
    NoDupPx p.Bids ∧ NoDupPx p.Offers ∧ AllPosQty p.Bids ∧ AllPosQty p.Offers

instance : DecidableRel (fun a b : Level => b.Px < a.Px) :=
  fun a b => inferInstanceAs (Decidable (b.Px < a.Px))

instance : DecidableRel (fun a b : Level => a.Px < b.Px) :=
  fun a b => inferInstanceAs (Decidable (a.Px < b.Px))

instance (l : List Level) : Decidable (StrictlyDescending l) :=
  List.instDecidablePairwise l

instance (l : List Level) : Decidable (StrictlyAscending l) :=
  List.instDecidablePairwise l

instance (l : List Level) : Decidable (NoDupPx l) :=
  inferInstanceAs (Decidable (l.map Level.Px).Nodup)

instance (l : List Level) : Decidable (AllPosQty l) :=
  inferInstanceAs (Decidable (∀ e ∈ l, 0 < e.Qty))

/-! ### Claim C7: top-N bounds -/

/-- A book holding ten bid levels, reachable from a ten-level snapshot. -/
def book10 : OrderBookProcessor :=
  NewOrderBookProcessor
    [⟨"bid", 10, 1⟩, ⟨"bid", 9, 1⟩, ⟨"bid", 8, 1⟩, ⟨"bid", 7, 1⟩, ⟨"bid", 6, 1⟩,
     ⟨"bid", 5, 1⟩, ⟨"bid", 4, 1⟩, ⟨"bid", 3, 1⟩, ⟨"bid", 2, 1⟩, ⟨"bid", 1, 1⟩]

/-- C7 counterexample: the claim says `topN` never returns more than 9
entries regardless of the caller-supplied `n`. The code has no such clamp:
on a ten-level book, `GetTopNBids 10` returns all ten entries. -/
theorem getTopNBids_exceeds_nine :
    ((book10.GetTopNBids 10).getD []).length = 10 := by decide

/-- C7 (amended): for every book and every non-negative `n`, `GetTopNBids`
and `GetTopNOffers` return exactly `min n (side length)` entries - in
particular never more than `min n (side length)`. There is no additional
clamp at 9 inside `topN` itself; the 1-9 bound holds only because the caller
(`MarketDataMode`) validates `n` before calling, and a negative `n` would
panic on the slice expression. -/
theorem getTopN_length_bound (p : OrderBookProcessor) (n : Int) (h : 0 ≤ n) :
    (∃ bl, p.GetTopNBids n = some bl ∧ bl.length = min n.toNat p.Bids.length) ∧
    (∃ ol, p.GetTopNOffers n = some ol ∧ ol.length = min n.toNat p.Offers.length) := by
  constructor
  · rw [OrderBookProcessor.GetTopNBids]
    by_cases hlt : (p.Bids.length : Int) < n
    · rw [if_pos hlt]
      exact ⟨p.Bids, rfl, by omega⟩
    · rw [if_neg hlt, if_neg (by omega)]
      exact ⟨_, rfl, by rw [List.length_take]⟩
  · rw [OrderBookProcessor.GetTopNOffers]
    by_cases hlt : (p.Offers.length : Int) < n
    · rw [if_pos hlt]
      exact ⟨p.Offers, rfl, by omega⟩
    · rw [if_neg hlt, if_neg (by omega)]
      exact ⟨_, rfl, by rw [List.length_take]⟩

/-- C7 witness: the amended bound applied to the concrete ten-level book at
`n = 3`. -/
theorem getTopN_length_bound_witness :
    (0 : Int) ≤ 3 ∧
    ((∃ bl, book10.GetTopNBids 3 = some bl ∧
        bl.length = min (Int.toNat 3) book10.Bids.length) ∧
     (∃ ol, book10.GetTopNOffers 3 = some ol ∧
        ol.length = min (Int.toNat 3) book10.Offers.length)) :=
  ⟨by decide, getTopN_length_bound book10 3 (by decide)⟩

/-! ### Claim C5: ladder invariant after ApplyUpdate -/

/-- A snapshot with a duplicated bid price. -/
def snapDup : List Level := [⟨"bid", 100, 2⟩, ⟨"bid", 100, 3⟩]

/-- C5 counterexample: the claim quantifies over every initial snapshot, but
`NewOrderBookProcessor` appends snapshot levels without deduplication and the
upsert of `ApplyUpdate` replaces only the first price match, so a snapshot
carrying the same bid price twice still violates the no-duplicate-price
invariant after a delta is applied. -/
theorem applyUpdate_duplicate_price_counterexample :
    ¬ NoDupPx ((NewOrderBookProcessor snapDup).ApplyUpdate
        ⟨"l2_data", [⟨"offer", 101, 1⟩]⟩).Bids := by decide

/-! ### Upsert and lookup machinery for the ladder proofs -/

/-- First entry of the side with the given price, the identity the upsert of
`apply` matches on. -/
def lookupPx : List Level → ℚ → Option Level
  | [], _ => none
  | e :: rest, p => if e.Px == p then some e else lookupPx rest p

/-- Last update of the list carrying the given price, if any: with upsert
semantics this is the surviving value at that price. -/
def lastUpdAt : List Level → ℚ → Option Level
  | [], _ => none
  | u :: rest, p =>
    match lastUpdAt rest p with
    | some w => some w
    | none => if u.Px = p then some u else none

theorem mem_px_upsertLevel {l : List Level} {v e : Level}
    (h : e ∈ upsertLevel l v) : e = v ∨ e ∈ l := by
  induction l with
  | nil => simpa [upsertLevel] using h
  | cons a rest ih =>
    rw [upsertLevel] at h
    by_cases hb : (a.Px == v.Px) = true
    · rw [if_pos hb] at h
      rcases List.mem_cons.mp h with h1 | h1
      · exact Or.inl h1
      · exact Or.inr (List.mem_cons_of_mem _ h1)
    · rw [if_neg hb] at h
      rcases List.mem_cons.mp h with h1 | h1
      · exact Or.inr (h1 ▸ List.mem_cons_self _ _)
      · rcases ih h1 with h2 | h2
        · exact Or.inl h2
        · exact Or.inr (List.mem_cons_of_mem _ h2)

theorem noDupPx_upsertLevel {l : List Level} {v : Level} (h : NoDupPx l) :
    NoDupPx (upsertLevel l v) := by
  induction l with
  | nil => simp [upsertLevel, NoDupPx]
  | cons a rest ih =>
    rw [NoDupPx, List.map_cons, List.nodup_cons] at h
    obtain ⟨ha, hrest⟩ := h
    rw [upsertLevel]
    by_cases hb : (a.Px == v.Px) = true
    · rw [if_pos hb]
      rw [beq_iff_eq] at hb
      rw [NoDupPx, List.map_cons, List.nodup_cons]
      exact ⟨by rw [← hb]; exact ha, hrest⟩
    · rw [if_neg hb]
      have hb2 : a.Px ≠ v.Px := by simpa using hb
      rw [NoDupPx, List.map_cons, List.nodup_cons]
      refine ⟨?_, ih hrest⟩
      intro hmem
      rcases List.mem_map.mp hmem with ⟨e, he, hex⟩
      rcases mem_px_upsertLevel he with rfl | h2
      · exact hb2 hex.symm
      · exact ha (List.mem_map.mpr ⟨e, h2, hex⟩)

theorem lookupPx_upsertLevel (l : List Level) (v : Level) (p : ℚ) :
    lookupPx (upsertLevel l v) p = if v.Px = p then some v else lookupPx l p := by
  induction l with
  | nil => simp [upsertLevel, lookupPx, beq_iff_eq]
  | cons a rest ih =>
    rw [upsertLevel]
    by_cases hb : a.Px = v.Px
    · rw [if_pos (beq_iff_eq.mpr hb)]
      by_cases hp : v.Px = p
      · simp [lookupPx, beq_iff_eq, hp]
      · have hap : ¬ a.Px = p := fun e => hp (hb ▸ e)
        simp [lookupPx, beq_iff_eq, hp, hap]
    · rw [if_neg (by simpa using hb)]
      by_cases hap : a.Px = p
      · have hvp : ¬ v.Px = p := fun e => hb (hap.trans e.symm)
        simp [lookupPx, beq_iff_eq, hap, hvp]
      · simp [lookupPx, beq_iff_eq, hap, ih]

theorem noDupPx_foldl_upsert (us : List Level) (l : List Level) (h : NoDupPx l) :
    NoDupPx (us.foldl upsertLevel l) := by
  induction us generalizing l with
  | nil => exact h
  | cons u rest ih => exact ih _ (noDupPx_upsertLevel h)

theorem lookupPx_foldl_upsert_none {us : List Level} {p : ℚ}
    (h : lastUpdAt us p = none) (l : List Level) :
    lookupPx (us.foldl upsertLevel l) p = lookupPx l p := by
  induction us generalizing l with
  | nil => rfl
  | cons u rest ih =>
    rw [lastUpdAt] at h
    cases hr : lastUpdAt rest p with
    | some w => rw [hr] at h; exact absurd h (by simp)
    | none =>
      rw [hr] at h
      have hu : ¬ u.Px = p := by
        by_contra hup
        rw [if_pos hup] at h
        exact absurd h (by simp)
      rw [List.foldl_cons, ih hr, lookupPx_upsertLevel, if_neg hu]

theorem lookupPx_foldl_upsert_some {us : List Level} {p : ℚ} {w : Level}
    (h : lastUpdAt us p = some w) (l : List Level) :
    lookupPx (us.foldl upsertLevel l) p = some w := by
  induction us generalizing l with
  | nil => exact absurd h (by simp [lastUpdAt])
  | cons u rest ih =>
    rw [lastUpdAt] at h
    cases hr : lastUpdAt rest p with
    | some w2 =>
      rw [hr] at h
      rw [Option.some_inj] at h
      subst h
      rw [List.foldl_cons]
      exact ih hr _
    | none =>
      rw [hr] at h
      by_cases hup : u.Px = p
      · rw [if_pos hup] at h
        rw [List.foldl_cons, lookupPx_foldl_upsert_none hr, lookupPx_upsertLevel,
          if_pos hup]
        exact h
      · rw [if_neg hup] at h
        exact absurd h (by simp)

theorem mem_iff_lookupPx {l : List Level} (h : NoDupPx l) (e : Level) :
    e ∈ l ↔ lookupPx l e.Px = some e := by
  induction l with
  | nil => simp [lookupPx]
  | cons a rest ih =>
    rw [NoDupPx, List.map_cons, List.nodup_cons] at h
    obtain ⟨ha, hrest⟩ := h
    rw [lookupPx]
    by_cases hb : a.Px = e.Px
    · rw [if_pos (beq_iff_eq.mpr hb)]
      constructor
      · intro hmem
        rcases List.mem_cons.mp hmem with rfl | h1
        · rfl
        · exact absurd (List.mem_map.mpr ⟨e, h1, hb.symm⟩) ha
      · intro hsome
        rw [Option.some_inj] at hsome
        exact hsome ▸ List.mem_cons_self _ _
    · rw [if_neg (by simpa using hb)]
      rw [List.mem_cons, ih hrest]
      constructor
      · rintro (rfl | h1)
        · exact absurd rfl hb
        · exact h1
      · exact Or.inr

/-! ### Per-side form of ApplyUpdate -/

/-- One side of `ApplyUpdate` on the subscribed channel: upsert every update
of that side in order, drop non-positive quantities, sort by the side
comparator. -/
def sideTransform (r : Level → Level → Prop) [DecidableRel r]
    (l us : List Level) : List Level :=
  (filterZeroQty (us.foldl upsertLevel l)).insertionSort r

theorem mem_filterZeroQty {l : List Level} {e : Level} :
    e ∈ filterZeroQty l ↔ e ∈ l ∧ 0 < e.Qty := by
  rw [filterZeroQty, List.mem_filter]
  simp

theorem noDupPx_filterZeroQty {l : List Level} (h : NoDupPx l) :
    NoDupPx (filterZeroQty l) :=
  List.Nodup.sublist (List.Sublist.map Level.Px (List.filter_sublist _)) h

theorem noDupPx_insertionSort (r : Level → Level → Prop) [DecidableRel r]
    {l : List Level} (h : NoDupPx l) : NoDupPx (l.insertionSort r) :=
  (List.Perm.nodup_iff ((List.perm_insertionSort r l).map Level.Px)).mpr h

theorem noDupPx_sideTransform (r : Level → Level → Prop) [DecidableRel r]
    {l : List Level} (us : List Level) (h : NoDupPx l) :
    NoDupPx (sideTransform r l us) :=
  noDupPx_insertionSort r (noDupPx_filterZeroQty (noDupPx_foldl_upsert us l h))

theorem allPosQty_sideTransform (r : Level → Level → Prop) [DecidableRel r]
    (l us : List Level) : AllPosQty (sideTransform r l us) := by
  intro e he
  rw [sideTransform, List.mem_insertionSort, mem_filterZeroQty] at he
  exact he.2

theorem mem_sideTransform_iff (r : Level → Level → Prop) [DecidableRel r]
    {l : List Level} (h : NoDupPx l) (us : List Level) (e : Level) :
    e ∈ sideTransform r l us ↔
      0 < e.Qty ∧ lookupPx (us.foldl upsertLevel l) e.Px = some e := by
  rw [sideTransform, List.mem_insertionSort, mem_filterZeroQty,
    ← mem_iff_lookupPx (noDupPx_foldl_upsert us l h) e]
  exact and_comm

theorem strictlyDescending_of_sorted {l : List Level}
    (hs : List.Sorted bidOrder l) (hn : NoDupPx l) : StrictlyDescending l := by
  have hs2 : l.Pairwise bidOrder := hs
  have hn2 : (l.map Level.Px).Pairwise (· ≠ ·) := hn
  have hne : l.Pairwise (fun a b => a.Px ≠ b.Px) := List.pairwise_map.mp hn2
  exact (hs2.and hne).imp (fun hab => lt_of_le_of_ne hab.1 (fun e => hab.2 e.symm))

theorem strictlyAscending_of_sorted {l : List Level}
    (hs : List.Sorted offerOrder l) (hn : NoDupPx l) : StrictlyAscending l := by
  have hs2 : l.Pairwise offerOrder := hs
  have hn2 : (l.map Level.Px).Pairwise (· ≠ ·) := hn
  have hne : l.Pairwise (fun a b => a.Px ≠ b.Px) := List.pairwise_map.mp hn2
  exact (hs2.and hne).imp (fun hab => lt_of_le_of_ne hab.1 hab.2)

instance : IsAntisymm Level (fun a b : Level => b.Px < a.Px) :=
  ⟨fun _ _ h1 h2 => absurd (lt_trans h1 h2) (lt_irrefl _)⟩

instance : IsAntisymm Level (fun a b : Level => a.Px < b.Px) :=
  ⟨fun _ _ h1 h2 => absurd (lt_trans h1 h2) (lt_irrefl _)⟩

theorem eq_of_strictlyDescending_of_mem_iff {l1 l2 : List Level}
    (h1 : StrictlyDescending l1) (h2 : StrictlyDescending l2)
    (hn1 : NoDupPx l1) (hn2 : NoDupPx l2) (hm : ∀ e, e ∈ l1 ↔ e ∈ l2) : l1 = l2 := by
  have hperm : List.Perm l1 l2 :=
    (List.perm_ext_iff_of_nodup (List.Nodup.of_map Level.Px hn1)
      (List.Nodup.of_map Level.Px hn2)).mpr hm
  exact List.eq_of_perm_of_sorted hperm h1 h2

theorem eq_of_strictlyAscending_of_mem_iff {l1 l2 : List Level}
    (h1 : StrictlyAscending l1) (h2 : StrictlyAscending l2)
    (hn1 : NoDupPx l1) (hn2 : NoDupPx l2) (hm : ∀ e, e ∈ l1 ↔ e ∈ l2) : l1 = l2 := by
  have hperm : List.Perm l1 l2 :=
    (List.perm_ext_iff_of_nodup (List.Nodup.of_map Level.Px hn1)
      (List.Nodup.of_map Level.Px hn2)).mpr hm
  exact List.eq_of_perm_of_sorted hperm h1 h2

theorem mem_sideTransform_idem (r : Level → Level → Prop) [DecidableRel r]
    {l : List Level} (h : NoDupPx l) (us : List Level) (e : Level) :
    e ∈ sideTransform r (sideTransform r l us) us ↔ e ∈ sideTransform r l us := by
  have hb1 : NoDupPx (sideTransform r l us) := noDupPx_sideTransform r us h
  rw [mem_sideTransform_iff r hb1 us e]
  cases hcase : lastUpdAt us e.Px with
  | some w =>
    rw [lookupPx_foldl_upsert_some hcase, mem_sideTransform_iff r h us e,
      lookupPx_foldl_upsert_some hcase]
  | none =>
    rw [lookupPx_foldl_upsert_none hcase, ← mem_iff_lookupPx hb1 e]
    constructor
    · rintro ⟨_, hmem⟩
      exact hmem
    · intro hmem
      exact ⟨allPosQty_sideTransform r l us e hmem, hmem⟩

theorem sideTransform_bid_idem {l : List Level} (h : NoDupPx l) (us : List Level) :
    sideTransform bidOrder (sideTransform bidOrder l us) us =
      sideTransform bidOrder l us := by
  have hb1 : NoDupPx (sideTransform bidOrder l us) := noDupPx_sideTransform bidOrder us h
  have hb2 : NoDupPx (sideTransform bidOrder (sideTransform bidOrder l us) us) :=
    noDupPx_sideTransform bidOrder us hb1
  exact eq_of_strictlyDescending_of_mem_iff
    (strictlyDescending_of_sorted (List.sorted_insertionSort _ _) hb2)
    (strictlyDescending_of_sorted (List.sorted_insertionSort _ _) hb1)
    hb2 hb1 (mem_sideTransform_idem bidOrder h us)

theorem sideTransform_offer_idem {l : List Level} (h : NoDupPx l) (us : List Level) :
    sideTransform offerOrder (sideTransform offerOrder l us) us =
      sideTransform offerOrder l us := by
  have hb1 : NoDupPx (sideTransform offerOrder l us) :=
    noDupPx_sideTransform offerOrder us h
  have hb2 : NoDupPx (sideTransform offerOrder (sideTransform offerOrder l us) us) :=
    noDupPx_sideTransform offerOrder us hb1
  exact eq_of_strictlyAscending_of_mem_iff
    (strictlyAscending_of_sorted (List.sorted_insertionSort _ _) hb2)
    (strictlyAscending_of_sorted (List.sorted_insertionSort _ _) hb1)
    hb2 hb1 (mem_sideTransform_idem offerOrder h us)

theorem foldl_apply_bids (us : List Level) (p : OrderBookProcessor) :
    (us.foldl OrderBookProcessor.apply p).Bids =
      (us.filter (fun u => u.Side == "bid")).foldl upsertLevel p.Bids := by
  induction us generalizing p with
  | nil => rfl
  | cons u rest ih =>
    rw [List.foldl_cons, ih, List.filter_cons]
    by_cases hoff : u.Side = "offer"
    · simp [OrderBookProcessor.apply, beq_iff_eq, hoff]
    · by_cases hbid : u.Side = "bid"
      · simp [OrderBookProcessor.apply, beq_iff_eq, hbid]
      · simp [OrderBookProcessor.apply, beq_iff_eq, hoff, hbid]

theorem foldl_apply_offers (us : List Level) (p : OrderBookProcessor) :
    (us.foldl OrderBookProcessor.apply p).Offers =
      (us.filter (fun u => u.Side == "offer")).foldl upsertLevel p.Offers := by
  induction us generalizing p with
  | nil => rfl
  | cons u rest ih =>
    rw [List.foldl_cons, ih, List.filter_cons]
    by_cases hoff : u.Side = "offer"
    · simp [OrderBookProcessor.apply, beq_iff_eq, hoff]
    · by_cases hbid : u.Side = "bid"
      · simp [OrderBookProcessor.apply, beq_iff_eq, hbid]
      · simp [OrderBookProcessor.apply, beq_iff_eq, hoff, hbid]

theorem bookExt {p q : OrderBookProcessor} (h1 : p.Bids = q.Bids)
    (h2 : p.Offers = q.Offers) : p = q := by
  cases p
  cases q
  simp_all

theorem ApplyUpdate_bids_eq (p : OrderBookProcessor) (m : UpdateMessage)
    (hch : m.Channel = "l2_data") :
    (p.ApplyUpdate m).Bids =
      sideTransform bidOrder p.Bids (m.Updates.filter (fun u => u.Side == "bid")) := by
  rw [OrderBookProcessor.ApplyUpdate, if_pos (beq_iff_eq.mpr hch)]
  show (filterZeroQty
      ((m.Updates.foldl OrderBookProcessor.apply p).Bids)).insertionSort bidOrder = _
  rw [foldl_apply_bids]
  rfl

theorem ApplyUpdate_offers_eq (p : OrderBookProcessor) (m : UpdateMessage)
    (hch : m.Channel = "l2_data") :
    (p.ApplyUpdate m).Offers =
      sideTransform offerOrder p.Offers
        (m.Updates.filter (fun u => u.Side == "offer")) := by
  rw [OrderBookProcessor.ApplyUpdate, if_pos (beq_iff_eq.mpr hch)]
  show (filterZeroQty
      ((m.Updates.foldl OrderBookProcessor.apply p).Offers)).insertionSort offerOrder = _
  rw [foldl_apply_offers]
  rfl

theorem ApplyUpdate_of_channel_ne (p : OrderBookProcessor) (m : UpdateMessage)
    (hch : ¬ m.Channel = "l2_data") : p.ApplyUpdate m = p := by
  rw [OrderBookProcessor.ApplyUpdate, if_neg (fun h => hch (beq_iff_eq.mp h))]

theorem noDupPx_ApplyUpdate_bids (p : OrderBookProcessor) (m : UpdateMessage)
    (hb : NoDupPx p.Bids) : NoDupPx (p.ApplyUpdate m).Bids := by
  by_cases hch : m.Channel = "l2_data"
  · rw [ApplyUpdate_bids_eq p m hch]
    exact noDupPx_sideTransform _ _ hb
  · rw [ApplyUpdate_of_channel_ne p m hch]
    exact hb

theorem noDupPx_ApplyUpdate_offers (p : OrderBookProcessor) (m : UpdateMessage)
    (ho : NoDupPx p.Offers) : NoDupPx (p.ApplyUpdate m).Offers := by
  by_cases hch : m.Channel = "l2_data"
  · rw [ApplyUpdate_offers_eq p m hch]
    exact noDupPx_sideTransform _ _ ho
  · rw [ApplyUpdate_of_channel_ne p m hch]
    exact ho

theorem ladderInv_applyUpdate (p : OrderBookProcessor) (m : UpdateMessage)
    (hb : NoDupPx p.Bids) (ho : NoDupPx p.Offers) (hch : m.Channel = "l2_data") :
    LadderInv (p.ApplyUpdate m) := by
  have hnb : NoDupPx (p.ApplyUpdate m).Bids := noDupPx_ApplyUpdate_bids p m hb
  have hno : NoDupPx (p.ApplyUpdate m).Offers := noDupPx_ApplyUpdate_offers p m ho
  refine ⟨?_, ?_, hnb, hno, ?_, ?_⟩
  · rw [ApplyUpdate_bids_eq p m hch] at hnb ⊢
    exact strictlyDescending_of_sorted (List.sorted_insertionSort _ _) hnb
  · rw [ApplyUpdate_offers_eq p m hch] at hno ⊢
    exact strictlyAscending_of_sorted (List.sorted_insertionSort _ _) hno
  · rw [ApplyUpdate_bids_eq p m hch]
    exact allPosQty_sideTransform _ _ _
  · rw [ApplyUpdate_offers_eq p m hch]
    exact allPosQty_sideTransform _ _ _

theorem foldl_ApplyUpdate_noDupPx (msgs : List UpdateMessage) (p : OrderBookProcessor)
    (hb : NoDupPx p.Bids) (ho : NoDupPx p.Offers) :
    NoDupPx (msgs.foldl OrderBookProcessor.ApplyUpdate p).Bids ∧
      NoDupPx (msgs.foldl OrderBookProcessor.ApplyUpdate p).Offers := by
  induction msgs generalizing p with
  | nil => exact ⟨hb, ho⟩
  | cons mm rest ih =>
    exact ih _ (noDupPx_ApplyUpdate_bids p mm hb) (noDupPx_ApplyUpdate_offers p mm ho)

/-- C5 (amended): for every initial snapshot whose per-side level lists carry
no duplicate price, and every sequence of delta messages, the book after each
`ApplyUpdate` of a message on the subscribed `l2_data` channel (messages with
any other channel tag are discarded unchanged) has strictly descending bids,
strictly ascending offers, no duplicate price per side and only positive
quantities. -/
theorem applyUpdate_ladder_invariant (snapshot : List Level)
    (msgs : List UpdateMessage) (m : UpdateMessage)
    (hb : NoDupPx (snapshot.filter (fun e => e.Side == "bid")))
    (ho : NoDupPx (snapshot.filter (fun e => e.Side == "offer")))
    (hch : m.Channel = "l2_data") :
    LadderInv ((msgs.foldl OrderBookProcessor.ApplyUpdate
      (NewOrderBookProcessor snapshot)).ApplyUpdate m) := by
  have h0b : NoDupPx (NewOrderBookProcessor snapshot).Bids :=
    noDupPx_insertionSort bidOrder hb
  have h0o : NoDupPx (NewOrderBookProcessor snapshot).Offers :=
    noDupPx_insertionSort offerOrder ho
  obtain ⟨h1, h2⟩ := foldl_ApplyUpdate_noDupPx msgs _ h0b h0o
  exact ladderInv_applyUpdate _ m h1 h2 hch

/-- C6: applying the same delta message twice to any Ladder state (a book
satisfying the Ladder identity invariant: no duplicate price per side) yields
exactly the state obtained by applying it once. -/
theorem applyUpdate_idempotent (p : OrderBookProcessor) (m : UpdateMessage)
    (hb : NoDupPx p.Bids) (ho : NoDupPx p.Offers) :
    (p.ApplyUpdate m).ApplyUpdate m = p.ApplyUpdate m := by
  by_cases hch : m.Channel = "l2_data"
  · apply bookExt
    · rw [ApplyUpdate_bids_eq (p.ApplyUpdate m) m hch, ApplyUpdate_bids_eq p m hch]
      exact sideTransform_bid_idem hb _
    · rw [ApplyUpdate_offers_eq (p.ApplyUpdate m) m hch, ApplyUpdate_offers_eq p m hch]
      exact sideTransform_offer_idem ho _
  · rw [ApplyUpdate_of_channel_ne p m hch, ApplyUpdate_of_channel_ne p m hch]

/-! Concrete snapshot, book and delta for the C5 and C6 witnesses. -/

def snapW : List Level := [⟨"bid", 100, 2⟩, ⟨"offer", 101, 3⟩]

def pW : OrderBookProcessor := NewOrderBookProcessor snapW

def mW : UpdateMessage := ⟨"l2_data", [⟨"bid", 100, 0⟩, ⟨"bid", 99, 1⟩]⟩

def msgsW : List UpdateMessage := [⟨"l2_data", [⟨"offer", 102, 4⟩]⟩]

/-- C5 witness: the amended invariant theorem applied to the concrete
snapshot `snapW`, intermediate delta list `msgsW` and final delta `mW`. -/
theorem applyUpdate_ladder_invariant_witness :
    NoDupPx (snapW.filter (fun e => e.Side == "bid")) ∧
    NoDupPx (snapW.filter (fun e => e.Side == "offer")) ∧
    mW.Channel = "l2_data" ∧
    LadderInv ((msgsW.foldl OrderBookProcessor.ApplyUpdate
      (NewOrderBookProcessor snapW)).ApplyUpdate mW) :=
  ⟨by decide, by decide, rfl,
    applyUpdate_ladder_invariant snapW msgsW mW (by decide) (by decide) rfl⟩

/-- C6 witness: idempotence applied to the concrete book `pW` and delta
`mW`. -/
theorem applyUpdate_idempotent_witness :
    NoDupPx pW.Bids ∧ NoDupPx pW.Offers ∧
      (pW.ApplyUpdate mW).ApplyUpdate mW = pW.ApplyUpdate mW :=
  ⟨by decide, by decide, applyUpdate_idempotent pW mW (by decide) (by decide)⟩

/-! ### Claim C8: the numeric parse of level updates -/

/-- Round-half-to-even of a rational to an integer, the tie-breaking rule of
IEEE 754 binary arithmetic. -/
def roundHalfEven (x : ℚ) : ℤ :=
  let f := ⌊x⌋
  if x - f < 1/2 then f
  else if 1/2 < x - f then f + 1
  else if f % 2 = 0 then f else f + 1

/-- Multiplication by an integer (possibly negative) power of two. -/
def scalePow2 (q : ℚ) (e : ℤ) : ℚ :=
  if 0 ≤ e then q * (2 : ℚ) ^ e.toNat else q / (2 : ℚ) ^ (-e).toNat

/-- The value `strconv.ParseFloat(s, 64)` returns for a decimal string of
exact rational value `q`: the nearest binary64, i.e. `q` rounded half-to-even
to a 53-bit significand. This models the normal finite range (no overflow or
subnormal clamping), which covers every input used below. -/
def floatRound53 (q : ℚ) : ℚ :=
  if q = 0 then 0
  else
    scalePow2 ((roundHalfEven (scalePow2 q (-(Int.log 2 |q| - 52)))) : ℚ)
      (Int.log 2 |q| - 52)

/-- `levelFromJSON` (part_000 lines 178-190): converts the wire strings of a
level update into a `Level` by `strconv.ParseFloat(..., 64)` on `Px` and
`Qty` - binary floating point, not a decimal type. `px` and `qty` here are
the exact rational values denoted by the decimal strings. -/
def levelFromJSON (side : String) (px qty : ℚ) : Level :=
  ⟨side, floatRound53 px, floatRound53 qty⟩

theorem floatRound53_of_one_le_lt_two {q : ℚ} (h1 : 1 ≤ q) (h2 : q < 2) :
    floatRound53 q = (roundHalfEven (q * 2 ^ 52) : ℚ) / 2 ^ 52 := by
  have hq0 : q ≠ 0 := by
    intro h
    rw [h] at h1
    norm_num at h1
  have habs : |q| = q := abs_of_pos (lt_of_lt_of_le one_pos h1)
  have hfl : ⌊q⌋₊ = 1 := by
    rw [Nat.floor_eq_iff (le_trans zero_le_one h1)]
    refine ⟨by exact_mod_cast h1, by push_cast; linarith⟩
  have hlog : Int.log 2 |q| = 0 := by
    rw [habs, Int.log_of_one_le_right 2 h1, hfl, Nat.log_one_right]
    rfl
  rw [floatRound53, if_neg hq0, hlog]
  simp only [scalePow2, show ((0 : ℤ) - 52) = -52 from rfl, neg_neg,
    show ¬ (0:ℤ) ≤ -52 by norm_num, if_true, if_false,
    show ((52:ℤ).toNat) = 52 from rfl, show ((-(-52:ℤ)).toNat) = 52 from rfl]
  norm_num

theorem roundHalfEven_of_floor_lt_half {x : ℚ} {z : ℤ} (hf : ⌊x⌋ = z)
    (hlt : x - z < 1/2) : roundHalfEven x = z := by
  rw [roundHalfEven]
  simp only [hf]
  rw [if_pos hlt]

theorem floatRound53_one : floatRound53 (1 : ℚ) = 1 := by
  rw [floatRound53_of_one_le_lt_two le_rfl (by norm_num)]
  have hf : ⌊((1 : ℚ) * 2 ^ 52)⌋ = 2 ^ 52 := by
    rw [one_mul, show ((2:ℚ) ^ 52) = ((2 ^ 52 : ℤ) : ℚ) by push_cast; ring]
    exact Int.floor_intCast _
  rw [roundHalfEven_of_floor_lt_half hf (by push_cast; norm_num)]
  push_cast
  norm_num

theorem floatRound53_one_eps :
    floatRound53 (1 + 1/100000000000000000 : ℚ) = 1 := by
  rw [floatRound53_of_one_le_lt_two (by norm_num) (by norm_num)]
  have hf : ⌊((1 + 1/100000000000000000 : ℚ) * 2 ^ 52)⌋ = 2 ^ 52 := by
    rw [Int.floor_eq_iff]
    constructor
    · push_cast
      norm_num
    · push_cast
      norm_num
  rw [roundHalfEven_of_floor_lt_half hf (by push_cast; norm_num)]
  push_cast
  norm_num

/-- C8: the claim says prices are parsed into a decimal type, never binary
floating point, so that textually distinct decimal prices stay distinct. The
code parses with `strconv.ParseFloat` into `float64`: the textually distinct
price strings `1` and `1.00000000000000001` denote different rationals yet
parse to the same `float64`, so the two levels get equal `Px` and the second
collides with (overwrites) the first in the book. -/
theorem levelFromJSON_distinct_prices_collide :
    ¬ (1 : ℚ) = 1 + 1/100000000000000000 ∧
    (levelFromJSON "bid" 1 5).Px =
      (levelFromJSON "bid" (1 + 1/100000000000000000) 5).Px := by
  constructor
  · norm_num
  · show floatRound53 1 = floatRound53 (1 + 1/100000000000000000)
    rw [floatRound53_one, floatRound53_one_eps]

/-! ### Claim C9: fat-finger validator (src/core/price.go lines 287-337) -/

/-- The `PriceData` cache entry (price.go lines 165-170): the venue returns
the fields as decimal strings; `none` models a string
`decimal.NewFromString` fails on. The `Price` and `Time` fields are cached
but unused by the validator (`Time` is omitted). -/
structure PriceData where
  Ask : Option ℚ
  Bid : Option ℚ
  Price : Option ℚ
deriving DecidableEq, Repr

/-- `decimal.NewFromFloat(BuyPriceMultiplier)`: `NewFromFloat` goes through
the shortest decimal string that round-trips the float64, so the constant
`1.05` becomes exactly 21/20. -/
def BuyPriceMultiplier : ℚ := 105/100

/-- `decimal.NewFromFloat(SellPriceMultiplier)`: exactly 19/20. -/
def SellPriceMultiplier : ℚ := 95/100

/-- `validateOrderAgainstFFP` (price.go lines 287-337). A missing cache entry
allows the order (fail-open). The `switch` computes `bestPrice` (cached bid
for Buy, ask for Sell; parse failure rejects) and `maxLimPrice`
(`bestPrice` times the side multiplier); with neither side matching both stay
zero. `spend = bestPrice * amount` above `MaxOrderSize` rejects; for limit
orders an unparseable limit price rejects, and a limit price above
`maxLimPrice` (Buy) or below it (Sell) rejects; otherwise the order is
allowed. -/
def validateOrderAgainstFFP (priceCache : List (String × PriceData))
    (MaxOrderSize : ℚ) (product side orderType : String)
    (limitPrice : Option ℚ) (amount : ℚ) : Bool :=
  match priceCache.lookup product with
  | none => true
  | some priceData =>
    let best : Option (ℚ × ℚ) :=
      if side == TradeSideBuy then
        match priceData.Bid with
        | none => none
        | some bestPrice => some (bestPrice, bestPrice * BuyPriceMultiplier)
      else if side == TradeSideSell then
        match priceData.Ask with
        | none => none
        | some bestPrice => some (bestPrice, bestPrice * SellPriceMultiplier)
      else some (0, 0)
    match best with
    | none => false
    | some (bestPrice, maxLimPrice) =>
      if MaxOrderSize < bestPrice * amount then false
      else if orderType == TradeTypeLimit then
        match limitPrice with
        | none => false
        | some limitPriceDecimal =>
          if (side == TradeSideBuy && decide (maxLimPrice < limitPriceDecimal)) ||
              (side == TradeSideSell && decide (limitPriceDecimal < maxLimPrice)) then
            false
          else true
      else true

/-- C9: the validator allows any order for a product with no cached price;
otherwise, with `bestPrice` the cached bid (Buy) or ask (Sell), it allows
exactly when `bestPrice * quantity` does not exceed the configured maximum
notional and, for limit orders, the limit price is not above
`bestPrice * 1.05` (Buy) respectively not below `bestPrice * 0.95`
(Sell). -/
theorem validateOrderAgainstFFP_characterization
    (priceCache : List (String × PriceData)) (MaxOrderSize : ℚ)
    (product orderType : String) (lp amount : ℚ) :
    (priceCache.lookup product = none →
      ∀ side limitPrice,
        validateOrderAgainstFFP priceCache MaxOrderSize product side orderType
          limitPrice amount = true) ∧
    (∀ pd b, priceCache.lookup product = some pd → pd.Bid = some b →
      (validateOrderAgainstFFP priceCache MaxOrderSize product TradeSideBuy
          orderType (some lp) amount = true ↔
        b * amount ≤ MaxOrderSize ∧
          (orderType = TradeTypeLimit → lp ≤ b * BuyPriceMultiplier))) ∧
    (∀ pd a, priceCache.lookup product = some pd → pd.Ask = some a →
      (validateOrderAgainstFFP priceCache MaxOrderSize product TradeSideSell
          orderType (some lp) amount = true ↔
        a * amount ≤ MaxOrderSize ∧
          (orderType = TradeTypeLimit → a * SellPriceMultiplier ≤ lp))) := by
  refine ⟨?_, ?_, ?_⟩
  · intro h side limitPrice
    simp [validateOrderAgainstFFP, h]
  · intro pd b hpd hbid
    have hval : validateOrderAgainstFFP priceCache MaxOrderSize product TradeSideBuy
        orderType (some lp) amount =
        (if MaxOrderSize < b * amount then false
         else if orderType == TradeTypeLimit then
           (if b * BuyPriceMultiplier < lp then false else true)
         else true) := by
      simp only [validateOrderAgainstFFP, hpd, hbid, beq_self_eq_true, if_true,
        show (TradeSideBuy == TradeSideSell) = false by decide]
      simp
    rw [hval]
    by_cases hmax : MaxOrderSize < b * amount
    · rw [if_pos hmax]
      exact iff_of_false (by simp)
        (fun hc => absurd hmax (not_lt.mpr hc.1))
    · rw [if_neg hmax]
      by_cases hot : orderType = TradeTypeLimit
      · rw [if_pos (beq_iff_eq.mpr hot)]
        by_cases hdev : b * BuyPriceMultiplier < lp
        · rw [if_pos hdev]
          exact iff_of_false (by simp)
            (fun hc => absurd hdev (not_lt.mpr (hc.2 hot)))
        · rw [if_neg hdev]
          exact iff_of_true rfl ⟨not_lt.mp hmax, fun _ => not_lt.mp hdev⟩
      · rw [if_neg (fun hb => hot (beq_iff_eq.mp hb))]
        exact iff_of_true rfl ⟨not_lt.mp hmax, fun h => absurd h hot⟩
  · intro pd a hpd hask
    have hval : validateOrderAgainstFFP priceCache MaxOrderSize product TradeSideSell
        orderType (some lp) amount =
        (if MaxOrderSize < a * amount then false
         else if orderType == TradeTypeLimit then
           (if lp < a * SellPriceMultiplier then false else true)
         else true) := by
      simp only [validateOrderAgainstFFP, hpd, hask, beq_self_eq_true, if_true,
        show (TradeSideSell == TradeSideBuy) = false by decide]
      simp
    rw [hval]
    by_cases hmax : MaxOrderSize < a * amount
    · rw [if_pos hmax]
      exact iff_of_false (by simp)
        (fun hc => absurd hmax (not_lt.mpr hc.1))
    · rw [if_neg hmax]
      by_cases hot : orderType = TradeTypeLimit
      · rw [if_pos (beq_iff_eq.mpr hot)]
        by_cases hdev : lp < a * SellPriceMultiplier
        · rw [if_pos hdev]
          exact iff_of_false (by simp)
            (fun hc => absurd hdev (not_lt.mpr (hc.2 hot)))
        · rw [if_neg hdev]
          exact iff_of_true rfl ⟨not_lt.mp hmax, fun _ => not_lt.mp hdev⟩
      · rw [if_neg (fun hb => hot (beq_iff_eq.mp hb))]
        exact iff_of_true rfl ⟨not_lt.mp hmax, fun h => absurd h hot⟩

/-- Concrete cache for the C9 witness: ETH-USD with bid 2000 and ask 2010. -/
def pdW : PriceData := ⟨some 2010, some 2000, some 2005⟩

def cacheW : List (String × PriceData) := [("ETH-USD", pdW)]

/-- C9 witness: the characterization applied to the concrete cache, a limit
buy of 10 units with limit price 2050 against bid 2000 and maximum notional
50000. -/
theorem validateOrderAgainstFFP_characterization_witness :
    cacheW.lookup ("ETH-USD") = some pdW ∧
    pdW.Bid = some 2000 ∧
    (validateOrderAgainstFFP cacheW 50000 ("ETH-USD") TradeSideBuy TradeTypeLimit
        (some 2050) 10 = true ↔
      (2000 : ℚ) * 10 ≤ 50000 ∧
        (TradeTypeLimit = TradeTypeLimit → (2050 : ℚ) ≤ 2000 * BuyPriceMultiplier)) :=
  ⟨by decide, by decide,
    (validateOrderAgainstFFP_characterization cacheW 50000 ("ETH-USD") TradeTypeLimit
      2050 10).2.1 pdW 2000 (by decide) (by decide)⟩

/-! ### Claim C10: trade-input token mapping (src/core/trade.go) -/

/-- `getTradeType` (src/core/trade.go lines 130-135). -/
def getTradeType (arg : String) : String :=
  if arg == ArgMarket then TradeTypeMarket else TradeTypeLimit

/-- `getTradeSide` (src/core/trade.go lines 137-142). -/
def getTradeSide (arg : String) : String :=
  if arg == ArgBuy then TradeSideBuy else TradeSideSell

/-- C10: any order-type token other than `mkt` maps to LIMIT and any side
token other than `b` maps to SELL; there is no rejection path, so the
mistyped sides `B` and `buy` silently become SELL orders. -/
theorem getTradeSide_getTradeType_default (arg : String) :
    (arg ≠ ArgMarket → getTradeType arg = TradeTypeLimit) ∧
    (arg ≠ ArgBuy → getTradeSide arg = TradeSideSell) ∧
    getTradeSide ("B") = TradeSideSell ∧ getTradeSide ("buy") = TradeSideSell := by
  refine ⟨?_, ?_, by decide, by decide⟩
  · intro h
    rw [getTradeType, if_neg (fun hb => h (beq_iff_eq.mp hb))]
  · intro h
    rw [getTradeSide, if_neg (fun hb => h (beq_iff_eq.mp hb))]

/-- C10 witness: the mapping applied to the mistyped side token `B`. -/
theorem getTradeSide_getTradeType_default_witness :
    getTradeType ("B") = TradeTypeLimit ∧ getTradeSide ("B") = TradeSideSell :=
  ⟨(getTradeSide_getTradeType_default ("B")).1 (by decide),
   (getTradeSide_getTradeType_default ("B")).2.1 (by decide)⟩

end TraderShell
